import Mathlib

/-!
A shallow embedding of the StaticPageRank solver of
`src/Static/PageRank/PageRank.cu` (namespace `hornet_alg`).

Modelling conventions:
* the floating-point score type `pr_t` is modelled by exact rational
  arithmetic (`ℚ`); device arrays indexed by vertex id are modelled as
  functions `Nat → ℚ`;
* `forAllnumV` / `forAllVertices` apply an operator to every vertex id
  below `nV` in parallel over distinct indices, which is a simultaneous
  pointwise update; `forAllEdges` visits every stored edge once, which is
  a fold over the stored edge list (the per-edge updates commute only up
  to the atomic-add reordering, whose sum is order independent, so the
  sequential fold is the faithful sequential semantics);
* the iteration kernels themselves live in `PageRankOperators.cuh`,
  which is not part of the given sources; they are modelled from the
  spec, as marked on each definition.
-/

namespace hornet_alg

/-- The graph handle. Modelled from the spec: the Hornet graph structure is
an external collaborator (spec §1, §6); the core consumes only the vertex
count and bulk vertex/edge traversal. Following spec §4.1.3, the underlying
representation stores each undirected edge once; `edges` is that stored
list. -/
structure HornetGPU where
  nV : Nat
  edges : List (Nat × Nat)

/-- A graph is well formed when every stored edge joins vertex ids below
`nV`. -/
def HornetGPU.wellFormed (g : HornetGPU) : Prop :=
  ∀ e ∈ g.edges, e.1 < g.nV ∧ e.2 < g.nV

/-- Number of stored-edge endpoints equal to `v` in an edge list: each
stored undirected edge counts at both of its endpoints (a self loop counts
twice). -/
def degList (edges : List (Nat × Nat)) (v : Nat) : Nat :=
  (edges.map (fun e => (if e.1 = v then 1 else 0) + (if e.2 = v then 1 else 0))).sum

/-- Modelled from the spec: the degree a vertex reports to the kernels
(`vertex.degree()` of the external graph provider). In the undirected
variant every stored edge is incident to both endpoints, so the degree of
`v` counts all stored-edge endpoints equal to `v`. -/
def HornetGPU.degree (g : HornetGPU) (v : Nat) : Nat :=
  degList g.edges v

/-- The per-run state `PrData` of the solver, as allocated in the
constructor of `StaticPageRank` (PageRank.cu lines 52-58) and declared in
the header: score vectors `prev_pr`, `curr_pr`, difference vector
`abs_diff`, per-vertex `contri`, the scalar `reduction_out`, the iteration
counter, and the configuration parameters. -/
structure PrData where
  nV : Nat
  prev_pr : Nat → ℚ
  curr_pr : Nat → ℚ
  abs_diff : Nat → ℚ
  contri : Nat → ℚ
  reduction_out : ℚ
  iteration : Int
  iteration_max : Int
  threshold : ℚ
  damp : ℚ
  normalized_damp : ℚ

/-- Modelled from the spec: `InitOperator` of `PageRankOperators.cuh`
(run over all vertices at PageRank.cu line 90). It installs the canonical
uniform initial distribution `prev_pr[v] := 1/N` (spec §8: scores are a
probability distribution and converge to `1/N` on a uniform cycle) and
clears the working arrays `curr_pr` and `abs_diff`. -/
def InitOperator (s : PrData) : PrData :=
  { s with
    prev_pr := fun v => if v < s.nV then 1 / (s.nV : ℚ) else s.prev_pr v
    curr_pr := fun v => if v < s.nV then 0 else s.curr_pr v
    abs_diff := fun v => if v < s.nV then 0 else s.abs_diff v }

/-- Modelled from the spec: `ResetCurr` of `PageRankOperators.cuh` (run at
PageRank.cu line 98). It clears the accumulator `curr_pr[v] := 0` for the
new pass. (Spec §4.1 states the damping application in two conflicting
ways: §4.1.1 resets `curr_score` to the teleport baseline, while §4.1.3-4
scatter the raw contributions and then apply
`curr := damp * curr + normalized_damp` in `DampAndDiff`. The two
formulations together would double count the teleport mass; we follow the
explicit §4.1.3 scatter formula and the explicit §4.1.4 damping formula,
which forces the reset baseline to be `0` and preserves the total-mass
property of spec §8.) -/
def ResetCurr (s : PrData) : PrData :=
  { s with curr_pr := fun v => if v < s.nV then 0 else s.curr_pr v }

/-- Modelled from the spec: `ComputeContribuitionPerVertex` of
`PageRankOperators.cuh` (run at PageRank.cu line 99), spec §4.1.2:
`contribution[v] := (out_degree(v) > 0) ? prev_score[v] / out_degree(v) : 0`. -/
def ComputeContribuitionPerVertex (g : HornetGPU) (s : PrData) : PrData :=
  { s with
    contri := fun v =>
      if v < s.nV then
        if g.degree v = 0 then 0 else s.prev_pr v / (g.degree v : ℚ)
      else s.contri v }

/-- Modelled from the spec: the per-edge body of
`AddContribuitionsUndirected` of `PageRankOperators.cuh`, spec §4.1.3: for
a stored undirected edge the contribution of each endpoint is atomically
added to the other endpoint's accumulating score, exactly once per stored
edge. -/
def addContribuitionsEdge (contri : Nat → ℚ) (curr : Nat → ℚ) (e : Nat × Nat) :
    Nat → ℚ :=
  let c1 := Function.update curr e.2 (curr e.2 + contri e.1)
  Function.update c1 e.1 (c1 e.1 + contri e.2)

/-- Modelled from the spec: `AddContribuitionsUndirected` run over all
stored edges (PageRank.cu lines 100-101): the sequential semantics of the
edge-parallel atomic accumulation is the fold of the per-edge body over
the stored edge list. -/
def AddContribuitionsUndirected (g : HornetGPU) (s : PrData) : PrData :=
  { s with curr_pr := g.edges.foldl (addContribuitionsEdge s.contri) s.curr_pr }

/-- Modelled from the spec: `DampAndDiffAndCopy` of `PageRankOperators.cuh`
(run at PageRank.cu line 103), spec §4.1.4: apply the damping formula
`curr_score[v] := damping * curr_score[v] + normalized_damping`, compute
`abs_diff[v] := |curr_score[v] - prev_score[v]|` with the old `prev_score`,
and only then copy `curr_score[v]` into `prev_score[v]`. -/
def DampAndDiffAndCopy (s : PrData) : PrData :=
  let newCurr := fun v =>
    if v < s.nV then s.damp * s.curr_pr v + s.normalized_damp else s.curr_pr v
  { s with
    curr_pr := newCurr
    abs_diff := fun v => if v < s.nV then |newCurr v - s.prev_pr v| else s.abs_diff v
    prev_pr := fun v => if v < s.nV then newCurr v else s.prev_pr v }

/-- Modelled from the spec: `Sum` of `PageRankOperators.cuh` (run at
PageRank.cu line 105), spec §4.1.5: the parallel reduction sums `abs_diff`
over all vertices into the scalar `reduction_out`. -/
def Sum (s : PrData) : PrData :=
  { s with reduction_out := ∑ v ∈ Finset.range s.nV, s.abs_diff v }

namespace StaticPageRank

/-- Allocation of the per-vertex arrays and the scalar in the constructor
(PageRank.cu lines 53-58). In C++ the freshly allocated contents are
unspecified; they are modelled as `0` and every entry is written before it
is read by `run`. -/
def allocPrData (g : HornetGPU) : PrData :=
  { nV := g.nV
    prev_pr := fun _ => 0
    curr_pr := fun _ => 0
    abs_diff := fun _ => 0
    contri := fun _ => 0
    reduction_out := 0
    iteration := 0
    iteration_max := 0
    threshold := 0
    damp := 0
    normalized_damp := 0 }

/-- `StaticPageRank::setInputParameters` (PageRank.cu lines 79-87): store
the three parameters unchanged and derive
`normalized_damp = (1 - damp) / hornet.nV()`. No validation is performed. -/
def setInputParameters (g : HornetGPU) (s : PrData) (iteration_max : Int)
    (threshold damp : ℚ) : PrData :=
  { s with
    iteration_max := iteration_max
    threshold := threshold
    damp := damp
    normalized_damp := (1 - damp) / (g.nV : ℚ) }

/-- `StaticPageRank::reset` (PageRank.cu lines 75-77): set the iteration
counter to `0`. -/
def reset (s : PrData) : PrData :=
  { s with iteration := 0 }

/-- The constructor `StaticPageRank::StaticPageRank` (PageRank.cu lines
46-60): set the input parameters, record `nV`, allocate the arrays, and
call `reset()`. -/
def construct (g : HornetGPU) (iteration_max : Int) (threshold damp : ℚ) : PrData :=
  reset (setInputParameters g (allocPrData g) iteration_max threshold damp)

/-- The body of one pass of the loop of `StaticPageRank::run` (PageRank.cu
lines 98-105): `ResetCurr`, `ComputeContribuitionPerVertex`,
`AddContribuitionsUndirected`, `DampAndDiffAndCopy`, `Sum`, each stage
completing (as a whole-array update) before the next starts. -/
def passBody (g : HornetGPU) (s : PrData) : PrData :=
  Sum (DampAndDiffAndCopy (AddContribuitionsUndirected g
    (ComputeContribuitionPerVertex g (ResetCurr s))))

/-- One full loop iteration of `run` (PageRank.cu lines 98-109): the five
kernels followed by the increment of the iteration counter. The host
read-back of `reduction_out` into `h_out` happens between the two; since
no kernel after `Sum` writes `reduction_out`, the value read equals
`(stepIter g s).reduction_out`. -/
def stepIter (g : HornetGPU) (s : PrData) : PrData :=
  let s1 := passBody g s
  { s1 with iteration := s1.iteration + 1 }

theorem stepIter_iteration (g : HornetGPU) (s : PrData) :
    (stepIter g s).iteration = s.iteration + 1 := rfl

theorem stepIter_iteration_max (g : HornetGPU) (s : PrData) :
    (stepIter g s).iteration_max = s.iteration_max := rfl

theorem stepIter_threshold (g : HornetGPU) (s : PrData) :
    (stepIter g s).threshold = s.threshold := rfl

theorem stepIter_nV (g : HornetGPU) (s : PrData) :
    (stepIter g s).nV = s.nV := rfl

theorem stepIter_damp (g : HornetGPU) (s : PrData) :
    (stepIter g s).damp = s.damp := rfl

theorem stepIter_normalized_damp (g : HornetGPU) (s : PrData) :
    (stepIter g s).normalized_damp = s.normalized_damp := rfl

/-- The `while` loop of `StaticPageRank::run` (PageRank.cu lines 95-110):
continue while `iteration < iteration_max && h_out > threshold`; each pass
runs the five kernels, reads `reduction_out` back into `h_out`, and
increments the iteration counter. -/
def runLoop (g : HornetGPU) (s : PrData) (h_out : ℚ) : PrData :=
  if s.iteration < s.iteration_max ∧ h_out > s.threshold then
    runLoop g (stepIter g s) ((stepIter g s).reduction_out)
  else s
termination_by (s.iteration_max - s.iteration).toNat
decreasing_by
  simp only [stepIter_iteration, stepIter_iteration_max]
  omega

/-- `StaticPageRank::run` (PageRank.cu lines 89-111): run `InitOperator`
over all vertices, set the iteration counter to `0`, set the loop guard
`h_out := threshold + 1`, and enter the loop. -/
def run (g : HornetGPU) (s : PrData) : PrData :=
  let s0 : PrData := { InitOperator s with iteration := 0 }
  runLoop g s0 (s0.threshold + 1)

/-- Score-ascending comparison on (score, vertex id) pairs: the key order
used by the key/value sort of `printRankings` (PageRank.cu lines 137-138,
keys `d_scores`, values `d_ids`). -/
def scoreLE (p q : ℚ × Nat) : Prop :=
  p.1 ≤ q.1

instance : DecidableRel scoreLE :=
  fun p q => inferInstanceAs (Decidable (p.1 ≤ q.1))

instance : IsTotal (ℚ × Nat) scoreLE :=
  ⟨fun p q => le_total p.1 q.1⟩

instance : IsTrans (ℚ × Nat) scoreLE :=
  ⟨fun _ _ _ h h' => le_trans h h'⟩

/-- The device arrays staged for the sort in `printRankings` (PageRank.cu
lines 121-122): `d_scores` is the copy of `curr_pr[0..nV)`, and `SetIds`
writes `d_ids[v] = v` (`SetIds` is modelled from the spec: it pairs each
vertex id with its score, spec §4.3). The pair list below holds
`(d_scores[v], d_ids[v])` for `v < n`. -/
def idScorePairs (scores : Nat → ℚ) (n : Nat) : List (ℚ × Nat) :=
  (List.range n).map (fun v => (scores v, v))

/-- The key/value sort of `printRankings` (PageRank.cu lines 137-138):
`cub::DeviceRadixSort::SortPairs` with keys `d_scores` and values `d_ids`
sorts the pairs by score in ascending order. The sort primitive is an
external provider (spec §1, §6: "stable or unstable key/value sort");
it is modelled by a comparison sort on the score key. -/
def sortPairsByScore (scores : Nat → ℚ) (n : Nat) : List (ℚ × Nat) :=
  List.insertionSort scoreLE (idScorePairs scores n)

/-- The array indices read by the print loop of `printRankings`
(PageRank.cu lines 144-145): `for (int i = 1; i < 11; i++)` reads
`h_ids[hornet.nV() - i]` and `h_scores[hornet.nV() - i]`, i.e. the ten
indices `nV - 1`, `nV - 2`, ..., `nV - 10`, with no dependence on any
requested count. Indices are integers so that a read below the start of
the arrays is visible as a negative index. -/
def printIndices (n : Nat) : List Int :=
  (List.range 10).map (fun i => (n : Int) - ((i : Int) + 1))

/-- The ten (score, id) entries printed by `printRankings` (PageRank.cu
lines 144-145), read from the score-sorted arrays at indices `n - 1` down
to `n - 10` (meaningful when `n ≥ 10`; for smaller `n` the C++ code reads
out of bounds, cf. `printIndices`). -/
def printedEntries (scores : Nat → ℚ) (n : Nat) : List (ℚ × Nat) :=
  (List.range 10).map (fun i => (sortPairsByScore scores n).getD (n - (i + 1)) (0, 0))

/-- `StaticPageRank::printRankings` applied to the solver state: the
scores sorted are the device copy of `curr_pr` (PageRank.cu line 121). -/
def printRankings (s : PrData) : List (ℚ × Nat) :=
  printedEntries s.curr_pr s.nV

/-- `StaticPageRank::get_iteration_count` (PageRank.cu lines 173-175). -/
def get_iteration_count (s : PrData) : Int :=
  s.iteration

/-- `StaticPageRank::get_page_rank_score_host` (PageRank.cu lines
167-171): the host copy of the first `nV` entries of `curr_pr`. -/
def get_page_rank_score_host (s : PrData) : List ℚ :=
  (List.range s.nV).map s.curr_pr

/-- The loop takes a pass exactly when `iteration < iteration_max` and
`h_out > threshold`. -/
theorem runLoop_continue (g : HornetGPU) (s : PrData) (h_out : ℚ)
    (h : s.iteration < s.iteration_max ∧ h_out > s.threshold) :
    runLoop g s h_out =
      runLoop g (stepIter g s) ((stepIter g s).reduction_out) := by
  rw [runLoop]
  simp [h]

/-- The loop stops, issuing no further pass, as soon as the guard fails. -/
theorem runLoop_stop (g : HornetGPU) (s : PrData) (h_out : ℚ)
    (h : ¬(s.iteration < s.iteration_max ∧ h_out > s.threshold)) :
    runLoop g s h_out = s := by
  rw [runLoop]
  simp [h]

theorem runLoop_iteration_max (g : HornetGPU) (s : PrData) (h_out : ℚ) :
    (runLoop g s h_out).iteration_max = s.iteration_max := by
  induction s, h_out using runLoop.induct g with
  | case1 s h_out hg ih =>
    rw [runLoop_continue g s h_out hg]
    rw [ih, stepIter_iteration_max]
  | case2 s h_out hg =>
    rw [runLoop_stop g s h_out hg]

theorem runLoop_threshold (g : HornetGPU) (s : PrData) (h_out : ℚ) :
    (runLoop g s h_out).threshold = s.threshold := by
  induction s, h_out using runLoop.induct g with
  | case1 s h_out hg ih =>
    rw [runLoop_continue g s h_out hg]
    rw [ih, stepIter_threshold]
  | case2 s h_out hg =>
    rw [runLoop_stop g s h_out hg]

/-- The iteration counter never decreases across the loop. -/
theorem runLoop_iteration_le (g : HornetGPU) (s : PrData) (h_out : ℚ) :
    s.iteration ≤ (runLoop g s h_out).iteration := by
  induction s, h_out using runLoop.induct g with
  | case1 s h_out hg ih =>
    rw [runLoop_continue g s h_out hg]
    have h1 : (stepIter g s).iteration = s.iteration + 1 := stepIter_iteration g s
    omega
  | case2 s h_out hg =>
    rw [runLoop_stop g s h_out hg]

/-- The iteration counter never exceeds `iteration_max` provided it starts
at or below it. -/
theorem runLoop_iteration_le_max (g : HornetGPU) (s : PrData) (h_out : ℚ)
    (hle : s.iteration ≤ s.iteration_max) :
    (runLoop g s h_out).iteration ≤ s.iteration_max := by
  induction s, h_out using runLoop.induct g with
  | case1 s h_out hg ih =>
    rw [runLoop_continue g s h_out hg]
    have h1 : (stepIter g s).iteration = s.iteration + 1 := stepIter_iteration g s
    have h2 : (stepIter g s).iteration_max = s.iteration_max :=
      stepIter_iteration_max g s
    have := ih (by omega)
    omega
  | case2 s h_out hg =>
    rw [runLoop_stop g s h_out hg]
    exact hle

/-- On termination the guard fails for the value last read back, which is
the final state's `reduction_out` whenever the loop body ran at least
once (the initial `h_out` is handled by the caller). -/
theorem runLoop_final_condition (g : HornetGPU) (s : PrData) (h_out : ℚ)
    (hstart : h_out = s.reduction_out ∨ h_out > s.threshold) :
    (runLoop g s h_out).iteration_max ≤ (runLoop g s h_out).iteration ∨
      (runLoop g s h_out).reduction_out ≤ (runLoop g s h_out).threshold := by
  induction s, h_out using runLoop.induct g with
  | case1 s h_out hg ih =>
    rw [runLoop_continue g s h_out hg]
    exact ih (Or.inl rfl)
  | case2 s h_out hg =>
    rw [runLoop_stop g s h_out hg]
    rcases not_and_or.mp hg with hmax | hth
    · exact Or.inl (by omega)
    · rcases hstart with heq | hgt
      · exact Or.inr (by rw [← heq]; exact not_lt.mp hth)
      · exact absurd hgt hth

end StaticPageRank

/-- The five iteration kernels of spec §2 / §4.1, tagged by name. -/
inductive Kernel
  | reset
  | contributionCompute
  | contributionScatter
  | dampAndDiff
  | convergenceReduce

/-- Dispatch a kernel tag to the stage function of the embedding that it
names: `Reset` is `ResetCurr`, `ContributionCompute` is
`ComputeContribuitionPerVertex`, `ContributionScatter` is
`AddContribuitionsUndirected`, `DampAndDiff` is `DampAndDiffAndCopy`,
`ConvergenceReduce` is `Sum`. -/
def applyKernel (g : HornetGPU) (s : PrData) (k : Kernel) : PrData :=
  match k with
  | Kernel.reset => ResetCurr s
  | Kernel.contributionCompute => ComputeContribuitionPerVertex g s
  | Kernel.contributionScatter => AddContribuitionsUndirected g s
  | Kernel.dampAndDiff => DampAndDiffAndCopy s
  | Kernel.convergenceReduce => Sum s

/-- Claim C1: every pass of `run()` executes the five iteration kernels in
the fixed order Reset, ContributionCompute, ContributionScatter,
DampAndDiff, ConvergenceReduce: the pass body is exactly the left-to-right
sequential composition (fold) of the five stage functions in that order,
each whole-array stage completing before the next begins, and one loop
iteration is that pass followed by the iteration-counter increment. -/
theorem run_pass_kernel_order (g : HornetGPU) (s : PrData) :
    StaticPageRank.passBody g s =
      List.foldl (applyKernel g) s
        [Kernel.reset, Kernel.contributionCompute, Kernel.contributionScatter,
         Kernel.dampAndDiff, Kernel.convergenceReduce] ∧
    StaticPageRank.stepIter g s =
      { StaticPageRank.passBody g s with
        iteration := (StaticPageRank.passBody g s).iteration + 1 } :=
  ⟨rfl, rfl⟩

/-- Claim C9: construction initializes the solver state (it stores the
parameters, records `nV`, and allocates the arrays) and runs the reset
routine once, which sets the iteration counter to `0`; hence the counter
is `0` before any call to `run()`. -/
theorem construct_runs_reset (g : HornetGPU) (im : Int) (th d : ℚ) :
    StaticPageRank.construct g im th d =
      StaticPageRank.reset
        (StaticPageRank.setInputParameters g (StaticPageRank.allocPrData g) im th d) ∧
    (∀ s : PrData, (StaticPageRank.reset s).iteration = 0) ∧
    (StaticPageRank.construct g im th d).iteration = 0 :=
  ⟨rfl, fun _ => rfl, rfl⟩

/-- Claim C6, counterexample: constructing with `iteration_max = 0`
(non-positive), `threshold = -1` (negative) and `damping = 2` (outside
`[0,1)`) succeeds: the solver state is produced, with exactly those
parameters stored, so no configuration error is raised and construction
is not refused. -/
theorem construct_accepts_invalid_parameters :
    (StaticPageRank.construct ⟨2, [(0, 1)]⟩ 0 (-1) 2).iteration_max = 0 ∧
    (StaticPageRank.construct ⟨2, [(0, 1)]⟩ 0 (-1) 2).threshold = -1 ∧
    (StaticPageRank.construct ⟨2, [(0, 1)]⟩ 0 (-1) 2).damp = 2 :=
  ⟨rfl, rfl, rfl⟩

/-- Claim C6, amended: construction performs no parameter validation;
every `iteration_max`, `threshold` and `damping` value (including
non-positive bounds, negative thresholds and damping outside `[0,1)`) is
accepted and stored unchanged, with `normalized_damp` derived as
`(1 - damp) / nV`; no error is ever raised. -/
theorem construct_stores_parameters (g : HornetGPU) (im : Int) (th d : ℚ) :
    (StaticPageRank.construct g im th d).iteration_max = im ∧
    (StaticPageRank.construct g im th d).threshold = th ∧
    (StaticPageRank.construct g im th d).damp = d ∧
    (StaticPageRank.construct g im th d).normalized_damp = (1 - d) / (g.nV : ℚ) ∧
    (StaticPageRank.construct g im th d).nV = g.nV :=
  ⟨rfl, rfl, rfl, rfl, rfl⟩

/-- Claim C10: the ranking report reads exactly the ten sorted-array
indices `nV - 1` down to `nV - 10`, independent of any requested count
(the print loop is the fixed `for (int i = 1; i < 11; i++)`), and for
every graph with fewer than 10 vertices one of those indices is negative,
i.e. below the start of the arrays of length `nV` allocated for the sort. -/
theorem printRankings_reads_fixed_ten_indices (n : Nat) :
    StaticPageRank.printIndices n =
      [(n : Int) - 1, (n : Int) - 2, (n : Int) - 3, (n : Int) - 4, (n : Int) - 5,
       (n : Int) - 6, (n : Int) - 7, (n : Int) - 8, (n : Int) - 9, (n : Int) - 10] ∧
    (n < 10 → ∃ idx ∈ StaticPageRank.printIndices n, idx < 0) := by
  have hlist : StaticPageRank.printIndices n =
      [(n : Int) - 1, (n : Int) - 2, (n : Int) - 3, (n : Int) - 4, (n : Int) - 5,
       (n : Int) - 6, (n : Int) - 7, (n : Int) - 8, (n : Int) - 9, (n : Int) - 10] := rfl
  refine ⟨hlist, fun h => ⟨(n : Int) - 10, ?_, by omega⟩⟩
  rw [hlist]
  simp

/-- Witness for claim C10 at the concrete vertex count `2 < 10`: some read
index is negative. -/
theorem printRankings_reads_fixed_ten_indices_witness :
    ∃ idx ∈ StaticPageRank.printIndices 2, idx < 0 :=
  (printRankings_reads_fixed_ten_indices 2).2 (by norm_num)

/-- Claim C2: the loop of `run()` continues exactly while the iteration
counter is below `iteration_max` and the transferred scalar exceeds
`threshold`: a pass is issued when both hold; no further pass is issued as
soon as the transferred scalar is ≤ `threshold` (Converged) or the counter
has reached `iteration_max` (Exhausted); and the state `run()` returns
satisfies one of the two terminal conditions. -/
theorem run_loop_exit_conditions (g : HornetGPU) (s : PrData) (h_out : ℚ) :
    (s.iteration < s.iteration_max ∧ h_out > s.threshold →
      StaticPageRank.runLoop g s h_out =
        StaticPageRank.runLoop g (StaticPageRank.stepIter g s)
          ((StaticPageRank.stepIter g s).reduction_out)) ∧
    (h_out ≤ s.threshold → StaticPageRank.runLoop g s h_out = s) ∧
    (s.iteration_max ≤ s.iteration → StaticPageRank.runLoop g s h_out = s) ∧
    ((StaticPageRank.run g s).iteration_max ≤ (StaticPageRank.run g s).iteration ∨
      (StaticPageRank.run g s).reduction_out ≤ (StaticPageRank.run g s).threshold) := by
  refine ⟨fun h => StaticPageRank.runLoop_continue g s h_out h,
    fun h => StaticPageRank.runLoop_stop g s h_out
      (fun hc => absurd hc.2 (not_lt.mpr h)),
    fun h => StaticPageRank.runLoop_stop g s h_out
      (fun hc => absurd hc.1 (not_lt.mpr h)), ?_⟩
  have hrun : StaticPageRank.run g s =
      StaticPageRank.runLoop g { InitOperator s with iteration := 0 }
        (({ InitOperator s with iteration := 0 } : PrData).threshold + 1) := rfl
  rw [hrun]
  exact StaticPageRank.runLoop_final_condition g _ _ (Or.inr (by linarith))

/-- Witness for claim C2 at a concrete solver state: with
`iteration_max = 5`, `threshold = 0` and counter `0`, the loop with
transferred scalar `1` issues a pass, and the loop with transferred
scalar `-1` stops unchanged. -/
theorem run_loop_exit_conditions_witness :
    (StaticPageRank.runLoop ⟨1, []⟩ (StaticPageRank.construct ⟨1, []⟩ 5 0 (1/2)) 1 =
      StaticPageRank.runLoop ⟨1, []⟩
        (StaticPageRank.stepIter ⟨1, []⟩ (StaticPageRank.construct ⟨1, []⟩ 5 0 (1/2)))
        ((StaticPageRank.stepIter ⟨1, []⟩
          (StaticPageRank.construct ⟨1, []⟩ 5 0 (1/2))).reduction_out)) ∧
    (StaticPageRank.runLoop ⟨1, []⟩ (StaticPageRank.construct ⟨1, []⟩ 5 0 (1/2)) (-1) =
      StaticPageRank.construct ⟨1, []⟩ 5 0 (1/2)) :=
  ⟨(run_loop_exit_conditions ⟨1, []⟩ (StaticPageRank.construct ⟨1, []⟩ 5 0 (1/2)) 1).1
      ⟨by decide, by decide⟩,
   (run_loop_exit_conditions ⟨1, []⟩ (StaticPageRank.construct ⟨1, []⟩ 5 0 (1/2)) (-1)).2.1
      (by decide)⟩

/-- Claim C3, amended: `run()` initializes the loop-guard scalar to
`threshold + 1`, so whenever `iteration_max ≥ 1` at least one full pass
executes and afterwards `get_iteration_count` lies in
`[1, iteration_max]`; for `iteration_max ≤ 0` (which construction does not
reject) no pass executes and the count stays `0`. -/
theorem run_iteration_count_bounds (g : HornetGPU) (s : PrData) :
    StaticPageRank.run g s =
      StaticPageRank.runLoop g { InitOperator s with iteration := 0 }
        (s.threshold + 1) ∧
    (1 ≤ s.iteration_max →
      1 ≤ StaticPageRank.get_iteration_count (StaticPageRank.run g s) ∧
      StaticPageRank.get_iteration_count (StaticPageRank.run g s) ≤ s.iteration_max) := by
  refine ⟨rfl, fun hmax => ?_⟩
  have s0eq : StaticPageRank.run g s =
      StaticPageRank.runLoop g { InitOperator s with iteration := 0 }
        (s.threshold + 1) := rfl
  set s0 : PrData := { InitOperator s with iteration := 0 } with hs0
  have hit : s0.iteration = 0 := rfl
  have hitmax : s0.iteration_max = s.iteration_max := rfl
  have hth : s0.threshold = s.threshold := rfl
  have hguard : s0.iteration < s0.iteration_max ∧ s.threshold + 1 > s0.threshold := by
    rw [hit, hitmax, hth]
    exact ⟨by omega, by linarith⟩
  have hcont := StaticPageRank.runLoop_continue g s0 (s.threshold + 1) hguard
  have h1 : (StaticPageRank.stepIter g s0).iteration = 1 := by
    rw [StaticPageRank.stepIter_iteration, hit]
    decide
  constructor
  · have hle := StaticPageRank.runLoop_iteration_le g (StaticPageRank.stepIter g s0)
      ((StaticPageRank.stepIter g s0).reduction_out)
    rw [h1] at hle
    rw [StaticPageRank.get_iteration_count, s0eq, hcont]
    exact hle
  · have hub := StaticPageRank.runLoop_iteration_le_max g (StaticPageRank.stepIter g s0)
      ((StaticPageRank.stepIter g s0).reduction_out)
      (by rw [h1, StaticPageRank.stepIter_iteration_max, hitmax]; omega)
    rw [StaticPageRank.stepIter_iteration_max, hitmax] at hub
    rw [StaticPageRank.get_iteration_count, s0eq, hcont]
    exact hub

/-- Witness for claim C3 (amended) at a concrete configuration with
`iteration_max = 3`. -/
theorem run_iteration_count_bounds_witness :
    1 ≤ StaticPageRank.get_iteration_count
        (StaticPageRank.run ⟨1, []⟩ (StaticPageRank.construct ⟨1, []⟩ 3 0 (1/2))) ∧
    StaticPageRank.get_iteration_count
        (StaticPageRank.run ⟨1, []⟩ (StaticPageRank.construct ⟨1, []⟩ 3 0 (1/2))) ≤
      (StaticPageRank.construct ⟨1, []⟩ 3 0 (1/2)).iteration_max :=
  (run_iteration_count_bounds ⟨1, []⟩ (StaticPageRank.construct ⟨1, []⟩ 3 0 (1/2))).2
    (by decide)

/-- Claim C3, counterexample: the configuration `iteration_max = 0` is
accepted by construction, `run()` then executes no pass, and the final
iteration count is `0`, outside the claimed interval `[1, iteration_max]`. -/
theorem run_iteration_count_zero_counterexample :
    StaticPageRank.get_iteration_count
        (StaticPageRank.run ⟨2, [(0, 1)]⟩
          (StaticPageRank.construct ⟨2, [(0, 1)]⟩ 0 0 (1/2))) = 0 ∧
    ¬(1 ≤ StaticPageRank.get_iteration_count
        (StaticPageRank.run ⟨2, [(0, 1)]⟩
          (StaticPageRank.construct ⟨2, [(0, 1)]⟩ 0 0 (1/2)))) := by
  have hstop : StaticPageRank.run ⟨2, [(0, 1)]⟩
      (StaticPageRank.construct ⟨2, [(0, 1)]⟩ 0 0 (1/2)) =
      { InitOperator (StaticPageRank.construct ⟨2, [(0, 1)]⟩ 0 0 (1/2)) with
        iteration := 0 } :=
    StaticPageRank.runLoop_stop _ _ _ (fun hc => absurd hc.1 (by decide))
  rw [StaticPageRank.get_iteration_count, hstop]
  exact ⟨rfl, by decide⟩

/-- A vertex of degree zero is an endpoint of no stored edge. -/
theorem degree_zero_not_incident (g : HornetGPU) (v : Nat) (h : g.degree v = 0) :
    ∀ e ∈ g.edges, e.1 ≠ v ∧ e.2 ≠ v := by
  intro e he
  unfold HornetGPU.degree degList at h
  rw [List.sum_eq_zero_iff] at h
  have hz := h _ (List.mem_map_of_mem _ he)
  constructor
  · intro h1
    rw [if_pos h1] at hz
    omega
  · intro h2
    rw [if_pos h2] at hz
    omega

/-- The edge fold leaves untouched every index that is an endpoint of no
edge in the list. -/
theorem scatter_not_incident (contri : Nat → ℚ) (v : Nat) :
    ∀ (edges : List (Nat × Nat)) (curr : Nat → ℚ),
      (∀ e ∈ edges, e.1 ≠ v ∧ e.2 ≠ v) →
      edges.foldl (addContribuitionsEdge contri) curr v = curr v := by
  intro edges
  induction edges with
  | nil => intro curr _; rfl
  | cons e es ih =>
    intro curr h
    rw [List.foldl_cons]
    rw [ih _ (fun e' he' => h e' (List.mem_cons_of_mem e he'))]
    have h1 := h e (List.mem_cons_self e es)
    unfold addContribuitionsEdge
    rw [Function.update_noteq h1.1.symm, Function.update_noteq h1.2.symm]

/-- Claim C4: in every iteration, before the edge pass, the contribution
of every vertex `v` is `prev_score[v] / out_degree(v)` when
`out_degree(v) > 0` and `0` when `out_degree(v) = 0`; a vertex of zero
out-degree contributes no scatter mass (its contribution is `0`), and its
mass is not redistributed to it: after the full pass its accumulated score
is exactly the teleport baseline `normalized_damp`. -/
theorem contribution_per_vertex (g : HornetGPU) (s : PrData) (v : Nat)
    (hv : v < s.nV) :
    (ComputeContribuitionPerVertex g (ResetCurr s)).contri v =
      (if g.degree v = 0 then 0 else s.prev_pr v / (g.degree v : ℚ)) ∧
    (g.degree v = 0 →
      (ComputeContribuitionPerVertex g (ResetCurr s)).contri v = 0 ∧
      (StaticPageRank.passBody g s).curr_pr v = s.normalized_damp) := by
  have hcontri : (ComputeContribuitionPerVertex g (ResetCurr s)).contri v =
      (if g.degree v = 0 then 0 else s.prev_pr v / (g.degree v : ℚ)) := by
    show (if v < s.nV then _ else _) = _
    rw [if_pos hv]
    rfl
  refine ⟨hcontri, fun hdeg => ⟨by rw [hcontri, if_pos hdeg], ?_⟩⟩
  show (DampAndDiffAndCopy
      (AddContribuitionsUndirected g (ComputeContribuitionPerVertex g (ResetCurr s)))).curr_pr v
    = s.normalized_damp
  show (if v < s.nV then
      s.damp * (AddContribuitionsUndirected g
        (ComputeContribuitionPerVertex g (ResetCurr s))).curr_pr v + s.normalized_damp
    else _) = s.normalized_damp
  rw [if_pos hv]
  have hsc : (AddContribuitionsUndirected g
      (ComputeContribuitionPerVertex g (ResetCurr s))).curr_pr v = 0 := by
    show g.edges.foldl (addContribuitionsEdge _) (ResetCurr s).curr_pr v = 0
    rw [scatter_not_incident _ v g.edges _ (degree_zero_not_incident g v hdeg)]
    show (if v < s.nV then 0 else s.curr_pr v) = 0
    rw [if_pos hv]
  rw [hsc, mul_zero, zero_add]

/-- Witness for claim C4 at vertex `1` of the concrete two-vertex graph
with the single self loop `(0, 0)`: vertex `1` has degree `0`, its
contribution is `0`, and after a pass its score is the teleport baseline. -/
theorem contribution_per_vertex_witness :
    ((ComputeContribuitionPerVertex ⟨2, [(0, 0)]⟩
        (ResetCurr (StaticPageRank.construct ⟨2, [(0, 0)]⟩ 5 0 (1/2)))).contri 1 =
      (if HornetGPU.degree ⟨2, [(0, 0)]⟩ 1 = 0 then 0 else
        (StaticPageRank.construct ⟨2, [(0, 0)]⟩ 5 0 (1/2)).prev_pr 1 /
          (HornetGPU.degree ⟨2, [(0, 0)]⟩ 1 : ℚ))) ∧
    (StaticPageRank.passBody ⟨2, [(0, 0)]⟩
        (StaticPageRank.construct ⟨2, [(0, 0)]⟩ 5 0 (1/2))).curr_pr 1 =
      (StaticPageRank.construct ⟨2, [(0, 0)]⟩ 5 0 (1/2)).normalized_damp := by
  have h := contribution_per_vertex ⟨2, [(0, 0)]⟩
    (StaticPageRank.construct ⟨2, [(0, 0)]⟩ 5 0 (1/2)) 1 (by decide)
  exact ⟨h.1, (h.2 (by decide)).2⟩

/-- Claim C5: the undirected scatter adds, for a stored edge `(u, v)`, the
contribution of `u` into the accumulating score of `v` and the
contribution of `v` into the accumulating score of `u`, each exactly once
per stored edge, touching no other vertex; and on the graph consisting of
the single undirected edge `(0, 1)` over two otherwise disconnected
vertices, the two accumulated scores are equal after one iteration of
`run()` (`iteration_max = 1`), for every threshold and damping value. -/
theorem undirected_scatter_both_endpoints (th d : ℚ) :
    (∀ (c f : Nat → ℚ) (u v : Nat), u ≠ v →
      addContribuitionsEdge c f (u, v) v = f v + c u ∧
      addContribuitionsEdge c f (u, v) u = f u + c v ∧
      (∀ w, w ≠ u → w ≠ v → addContribuitionsEdge c f (u, v) w = f w)) ∧
    ((StaticPageRank.run ⟨2, [(0, 1)]⟩
        (StaticPageRank.construct ⟨2, [(0, 1)]⟩ 1 th d)).curr_pr 0 =
      (StaticPageRank.run ⟨2, [(0, 1)]⟩
        (StaticPageRank.construct ⟨2, [(0, 1)]⟩ 1 th d)).curr_pr 1) := by
  constructor
  · intro c f u v huv
    refine ⟨?_, ?_, ?_⟩
    · show Function.update (Function.update f v (f v + c u)) u _ v = f v + c u
      rw [Function.update_noteq huv.symm, Function.update_same]
    · show Function.update (Function.update f v (f v + c u)) u
        (Function.update f v (f v + c u) u + c v) u = f u + c v
      rw [Function.update_same, Function.update_noteq huv]
    · intro w hwu hwv
      show Function.update (Function.update f v (f v + c u)) u _ w = f w
      rw [Function.update_noteq hwu, Function.update_noteq hwv]
  · set s : PrData := StaticPageRank.construct ⟨2, [(0, 1)]⟩ 1 th d with hs
    set s0 : PrData := { InitOperator s with iteration := 0 } with hs0
    have hguard : s0.iteration < s0.iteration_max ∧ s.threshold + 1 > s0.threshold := by
      constructor
      · show (0 : Int) < 1
        norm_num
      · show th + 1 > th
        linarith
    have hrun : StaticPageRank.run ⟨2, [(0, 1)]⟩ s =
        StaticPageRank.stepIter ⟨2, [(0, 1)]⟩ s0 := by
      have hcont := StaticPageRank.runLoop_continue ⟨2, [(0, 1)]⟩ s0 (s.threshold + 1) hguard
      have hstop := StaticPageRank.runLoop_stop ⟨2, [(0, 1)]⟩
        (StaticPageRank.stepIter ⟨2, [(0, 1)]⟩ s0)
        ((StaticPageRank.stepIter ⟨2, [(0, 1)]⟩ s0).reduction_out)
        (by
          intro hc
          have h1 := hc.1
          rw [StaticPageRank.stepIter_iteration, StaticPageRank.stepIter_iteration_max] at h1
          have h2 : s0.iteration = 0 := rfl
          have h3 : s0.iteration_max = 1 := rfl
          omega)
      show StaticPageRank.runLoop ⟨2, [(0, 1)]⟩ s0 (s.threshold + 1) = _
      rw [hcont, hstop]
    rw [hrun]
    show (DampAndDiffAndCopy (AddContribuitionsUndirected ⟨2, [(0, 1)]⟩
        (ComputeContribuitionPerVertex ⟨2, [(0, 1)]⟩ (ResetCurr s0)))).curr_pr 0 =
      (DampAndDiffAndCopy (AddContribuitionsUndirected ⟨2, [(0, 1)]⟩
        (ComputeContribuitionPerVertex ⟨2, [(0, 1)]⟩ (ResetCurr s0)))).curr_pr 1
    simp only [DampAndDiffAndCopy, AddContribuitionsUndirected,
      ComputeContribuitionPerVertex, ResetCurr, addContribuitionsEdge,
      HornetGPU.degree, degList, List.foldl_cons, List.foldl_nil]
    norm_num [Function.update, hs, InitOperator, StaticPageRank.construct,
      StaticPageRank.reset, StaticPageRank.setInputParameters,
      StaticPageRank.allocPrData]

/-- Witness for claim C5: the per-edge update at the concrete edge
`(0, 1)` with unit contributions, and the symmetric scenario at
`threshold = 0`, `damping = 1/2`. -/
theorem undirected_scatter_both_endpoints_witness :
    (addContribuitionsEdge (fun _ => (1 : ℚ)) (fun _ => 0) (0, 1) 1 = 0 + 1) ∧
    ((StaticPageRank.run ⟨2, [(0, 1)]⟩
        (StaticPageRank.construct ⟨2, [(0, 1)]⟩ 1 0 (1/2))).curr_pr 0 =
      (StaticPageRank.run ⟨2, [(0, 1)]⟩
        (StaticPageRank.construct ⟨2, [(0, 1)]⟩ 1 0 (1/2))).curr_pr 1) :=
  ⟨((undirected_scatter_both_endpoints 0 (1/2)).1 (fun _ => 1) (fun _ => 0) 0 1
      (by decide)).1,
   (undirected_scatter_both_endpoints 0 (1/2)).2⟩

/-- Summing a pointwise update over `range N` adjusts the sum at the
updated index. -/
theorem sum_update_range (N : Nat) (f : Nat → ℚ) (i : Nat) (x : ℚ) (hi : i < N) :
    ∑ v ∈ Finset.range N, Function.update f i x v =
      (∑ v ∈ Finset.range N, f v) - f i + x := by
  have hm : i ∈ Finset.range N := Finset.mem_range.mpr hi
  rw [Finset.sum_update_of_mem hm, Finset.sdiff_singleton_eq_erase]
  have h2 := Finset.add_sum_erase (Finset.range N) f hm
  linarith

/-- One undirected per-edge update adds exactly the two endpoint
contributions to the total accumulated score. -/
theorem sum_addContribuitionsEdge (N : Nat) (contri curr : Nat → ℚ)
    (e : Nat × Nat) (h1 : e.1 < N) (h2 : e.2 < N) :
    ∑ v ∈ Finset.range N, addContribuitionsEdge contri curr e v =
      (∑ v ∈ Finset.range N, curr v) + (contri e.1 + contri e.2) := by
  simp only [addContribuitionsEdge]
  rw [sum_update_range N _ e.1 _ h1, sum_update_range N curr e.2 _ h2]
  ring

/-- The whole edge fold adds the sum over stored edges of the two endpoint
contributions. -/
theorem sum_scatter (N : Nat) (contri : Nat → ℚ) :
    ∀ (edges : List (Nat × Nat)) (curr : Nat → ℚ),
      (∀ e ∈ edges, e.1 < N ∧ e.2 < N) →
      ∑ v ∈ Finset.range N, edges.foldl (addContribuitionsEdge contri) curr v =
        (∑ v ∈ Finset.range N, curr v) +
          (edges.map (fun e => contri e.1 + contri e.2)).sum := by
  intro edges
  induction edges with
  | nil => intro curr _; simp
  | cons e es ih =>
    intro curr h
    rw [List.foldl_cons, List.map_cons, List.sum_cons]
    rw [ih _ (fun e' he' => h e' (List.mem_cons_of_mem e he'))]
    have he := h e (List.mem_cons_self e es)
    rw [sum_addContribuitionsEdge N contri curr e he.1 he.2]
    ring

/-- Summing the two endpoint values over the stored edges equals the
degree-weighted vertex sum. -/
theorem sum_deg_mul (N : Nat) (c : Nat → ℚ) :
    ∀ edges : List (Nat × Nat), (∀ e ∈ edges, e.1 < N ∧ e.2 < N) →
      (edges.map (fun e => c e.1 + c e.2)).sum =
        ∑ v ∈ Finset.range N, (degList edges v : ℚ) * c v := by
  intro edges
  induction edges with
  | nil => intro _; simp [degList]
  | cons e es ih =>
    intro h
    rw [List.map_cons, List.sum_cons, ih (fun e' he' => h e' (List.mem_cons_of_mem e he'))]
    have he := h e (List.mem_cons_self e es)
    have hdeg : ∀ v ∈ Finset.range N, (degList (e :: es) v : ℚ) * c v =
        ((if e.1 = v then c v else 0) + (if e.2 = v then c v else 0)) +
          (degList es v : ℚ) * c v := by
      intro v _
      have hstep : degList (e :: es) v =
          ((if e.1 = v then 1 else 0) + (if e.2 = v then 1 else 0)) + degList es v := by
        unfold degList
        rw [List.map_cons, List.sum_cons]
      rw [hstep]
      push_cast
      by_cases hc1 : e.1 = v <;> by_cases hc2 : e.2 = v <;>
        simp [hc1, hc2] <;> try ring
    rw [Finset.sum_congr rfl hdeg]
    rw [Finset.sum_add_distrib, Finset.sum_add_distrib]
    rw [Finset.sum_ite_eq (Finset.range N) e.1 c, Finset.sum_ite_eq (Finset.range N) e.2 c]
    rw [if_pos (Finset.mem_range.mpr he.1), if_pos (Finset.mem_range.mpr he.2)]
    try ring

/-- After the scatter, the accumulated score total equals the previous
score total, provided every vertex has positive degree: the contribution
`prev/deg` is re-collected `deg` times. -/
theorem scatter_total_mass (g : HornetGPU) (s : PrData)
    (hwf : g.wellFormed) (hdeg : ∀ v < g.nV, g.degree v ≠ 0)
    (hnv : s.nV = g.nV)
    (hprev : ∑ v ∈ Finset.range g.nV, s.prev_pr v = 1) :
    ∑ v ∈ Finset.range g.nV,
      (AddContribuitionsUndirected g
        (ComputeContribuitionPerVertex g (ResetCurr s))).curr_pr v = 1 := by
  show ∑ v ∈ Finset.range g.nV,
      g.edges.foldl
        (addContribuitionsEdge (ComputeContribuitionPerVertex g (ResetCurr s)).contri)
        ((ResetCurr s).curr_pr) v = 1
  rw [sum_scatter g.nV _ g.edges _ (fun e he => hwf e he)]
  have hreset : ∑ v ∈ Finset.range g.nV, (ResetCurr s).curr_pr v = 0 := by
    apply Finset.sum_eq_zero
    intro v hv
    show (if v < s.nV then 0 else s.curr_pr v) = 0
    rw [if_pos (by rw [hnv]; exact Finset.mem_range.mp hv)]
  have hmap : (g.edges.map (fun e =>
      (ComputeContribuitionPerVertex g (ResetCurr s)).contri e.1 +
        (ComputeContribuitionPerVertex g (ResetCurr s)).contri e.2)).sum = 1 := by
    rw [sum_deg_mul g.nV _ g.edges (fun e he => hwf e he), ← hprev]
    apply Finset.sum_congr rfl
    intro v hv
    have hvN : v < g.nV := Finset.mem_range.mp hv
    have hd := hdeg v hvN
    show (g.degree v : ℚ) *
        (if v < s.nV then
          (if g.degree v = 0 then 0 else s.prev_pr v / (g.degree v : ℚ))
        else (ResetCurr s).contri v) = s.prev_pr v
    rw [if_pos (by rw [hnv]; exact hvN), if_neg hd, mul_comm,
      div_mul_cancel₀ _ (Nat.cast_ne_zero.mpr hd)]
  rw [hreset, hmap]
  norm_num

/-- One full pass preserves the unit total of the score distribution: both
`prev_pr` (after the copy) and `curr_pr` sum to `1` afterwards. -/
theorem stepIter_mass (g : HornetGPU) (s : PrData)
    (hwf : g.wellFormed) (hdeg : ∀ v < g.nV, g.degree v ≠ 0)
    (hnv : s.nV = g.nV)
    (hnd : s.normalized_damp = (1 - s.damp) / (g.nV : ℚ))
    (hN : 1 ≤ g.nV)
    (hprev : ∑ v ∈ Finset.range g.nV, s.prev_pr v = 1) :
    ∑ v ∈ Finset.range g.nV, (StaticPageRank.stepIter g s).prev_pr v = 1 ∧
    ∑ v ∈ Finset.range g.nV, (StaticPageRank.stepIter g s).curr_pr v = 1 := by
  have hcast : ((g.nV : ℚ)) ≠ 0 := Nat.cast_ne_zero.mpr (by omega)
  have hScatter := scatter_total_mass g s hwf hdeg hnv hprev
  have hcurr : ∀ v ∈ Finset.range g.nV, (StaticPageRank.stepIter g s).curr_pr v =
      s.damp * (AddContribuitionsUndirected g
        (ComputeContribuitionPerVertex g (ResetCurr s))).curr_pr v +
        s.normalized_damp := by
    intro v hv
    show (if v < s.nV then
        s.damp * (AddContribuitionsUndirected g
          (ComputeContribuitionPerVertex g (ResetCurr s))).curr_pr v +
          s.normalized_damp
      else _) = _
    rw [if_pos (by rw [hnv]; exact Finset.mem_range.mp hv)]
  have hprevNew : ∀ v ∈ Finset.range g.nV, (StaticPageRank.stepIter g s).prev_pr v =
      (StaticPageRank.stepIter g s).curr_pr v := by
    intro v hv
    show (if v < s.nV then _ else _) = _
    rw [if_pos (by rw [hnv]; exact Finset.mem_range.mp hv)]
    rfl
  have hcurrSum : ∑ v ∈ Finset.range g.nV, (StaticPageRank.stepIter g s).curr_pr v = 1 := by
    rw [Finset.sum_congr rfl hcurr, Finset.sum_add_distrib, ← Finset.mul_sum, hScatter,
      Finset.sum_const, Finset.card_range, nsmul_eq_mul, hnd]
    field_simp
  exact ⟨by rw [Finset.sum_congr rfl hprevNew, hcurrSum], hcurrSum⟩

/-- The loop preserves the unit totals of both score vectors. -/
theorem runLoop_mass (g : HornetGPU)
    (hwf : g.wellFormed) (hdeg : ∀ v < g.nV, g.degree v ≠ 0) (hN : 1 ≤ g.nV) :
    ∀ (s : PrData) (h_out : ℚ),
      s.nV = g.nV →
      s.normalized_damp = (1 - s.damp) / (g.nV : ℚ) →
      (∑ v ∈ Finset.range g.nV, s.prev_pr v = 1) →
      (∑ v ∈ Finset.range g.nV, s.curr_pr v = 1) →
      ∑ v ∈ Finset.range g.nV, (StaticPageRank.runLoop g s h_out).curr_pr v = 1 := by
  intro s h_out
  induction s, h_out using StaticPageRank.runLoop.induct g with
  | case1 s h_out hg ih =>
    intro hnv hnd hprev _
    rw [StaticPageRank.runLoop_continue g s h_out hg]
    have hmass := stepIter_mass g s hwf hdeg hnv hnd hN hprev
    exact ih (by rw [StaticPageRank.stepIter_nV]; exact hnv)
      (by rw [StaticPageRank.stepIter_normalized_damp, StaticPageRank.stepIter_damp]; exact hnd)
      hmass.1 hmass.2
  | case2 s h_out hg =>
    intro _ _ _ hcurr
    rw [StaticPageRank.runLoop_stop g s h_out hg]
    exact hcurr

/-- Claim C7, amended: for every well-formed graph with at least one
vertex in which every vertex has out-degree > 0, and every configuration
with `iteration_max ≥ 1`, after `run()` returns the sum of `curr_score`
over all vertices equals `1` exactly (in the exact-rational model of the
floating-point scores). -/
theorem run_total_mass (g : HornetGPU) (im : Int) (th d : ℚ)
    (hwf : g.wellFormed) (hdeg : ∀ v < g.nV, 0 < g.degree v)
    (hN : 1 ≤ g.nV) (him : 1 ≤ im) :
    ∑ v ∈ Finset.range g.nV,
      (StaticPageRank.run g (StaticPageRank.construct g im th d)).curr_pr v = 1 := by
  have hdeg' : ∀ v < g.nV, g.degree v ≠ 0 := fun v hv => (hdeg v hv).ne'
  have hcast : ((g.nV : ℚ)) ≠ 0 := Nat.cast_ne_zero.mpr (by omega)
  set s : PrData := StaticPageRank.construct g im th d with hs
  set s0 : PrData := { InitOperator s with iteration := 0 } with hs0
  have hrun : StaticPageRank.run g s = StaticPageRank.runLoop g s0 (s.threshold + 1) := rfl
  have hguard : s0.iteration < s0.iteration_max ∧ s.threshold + 1 > s0.threshold := by
    constructor
    · show (0 : Int) < im
      omega
    · show th + 1 > th
      linarith
  have hcont := StaticPageRank.runLoop_continue g s0 (s.threshold + 1) hguard
  rw [hrun, hcont]
  have hprev0 : ∑ v ∈ Finset.range g.nV, s0.prev_pr v = 1 := by
    have hval : ∀ v ∈ Finset.range g.nV, s0.prev_pr v = 1 / (g.nV : ℚ) := by
      intro v hv
      show (if v < g.nV then 1 / (g.nV : ℚ) else s.prev_pr v) = 1 / (g.nV : ℚ)
      rw [if_pos (Finset.mem_range.mp hv)]
    rw [Finset.sum_congr rfl hval, Finset.sum_const, Finset.card_range, nsmul_eq_mul]
    field_simp
  have hmass := stepIter_mass g s0 hwf hdeg' rfl rfl hN hprev0
  exact runLoop_mass g hwf hdeg' hN (StaticPageRank.stepIter g s0)
    ((StaticPageRank.stepIter g s0).reduction_out) rfl rfl hmass.1 hmass.2

/-- Witness for claim C7 (amended) on the two-vertex single-edge graph
with `iteration_max = 3`, `threshold = 0`, `damping = 1/2`. -/
theorem run_total_mass_witness :
    ∑ v ∈ Finset.range (⟨2, [(0, 1)]⟩ : HornetGPU).nV,
      (StaticPageRank.run ⟨2, [(0, 1)]⟩
        (StaticPageRank.construct ⟨2, [(0, 1)]⟩ 3 0 (1/2))).curr_pr v = 1 :=
  run_total_mass ⟨2, [(0, 1)]⟩ 3 0 (1/2)
    (by unfold HornetGPU.wellFormed; decide) (by decide) (by decide) (by decide)

/-- Claim C7, counterexample: the zero-vertex graph satisfies "every
vertex has out-degree > 0" vacuously, construction accepts it, `run()`
returns, and the sum of `curr_score` over all vertices is `0`, not `1`. -/
theorem run_total_mass_counterexample :
    (∀ v < (⟨0, []⟩ : HornetGPU).nV, 0 < HornetGPU.degree ⟨0, []⟩ v) ∧
    (∑ v ∈ Finset.range (⟨0, []⟩ : HornetGPU).nV,
        (StaticPageRank.run ⟨0, []⟩
          (StaticPageRank.construct ⟨0, []⟩ 100 0 (17/20))).curr_pr v = 0) ∧
    (0 : ℚ) ≠ 1 := by
  refine ⟨fun v hv => absurd (show v < 0 from hv) (by omega), ?_, by norm_num⟩
  show ∑ v ∈ Finset.range 0, _ = (0 : ℚ)
  simp

theorem length_sortPairsByScore (scores : Nat → ℚ) (n : Nat) :
    (StaticPageRank.sortPairsByScore scores n).length = n := by
  unfold StaticPageRank.sortPairsByScore StaticPageRank.idScorePairs
  rw [List.length_insertionSort, List.length_map, List.length_range]

/-- The ten printed entries are exactly the last ten entries of the
score-ascending sorted array, read backwards. -/
theorem printedEntries_eq_reverse_drop (scores : Nat → ℚ) (n : Nat) (hn : 10 ≤ n) :
    StaticPageRank.printedEntries scores n =
      ((StaticPageRank.sortPairsByScore scores n).drop (n - 10)).reverse := by
  have hlen : (StaticPageRank.sortPairsByScore scores n).length = n :=
    length_sortPairsByScore scores n
  apply List.ext_getElem?
  intro i
  by_cases hi : i < 10
  · have hidx : n - (i + 1) < (StaticPageRank.sortPairsByScore scores n).length := by
      rw [hlen]; omega
    have hdropLen : ((StaticPageRank.sortPairsByScore scores n).drop (n - 10)).length = 10 := by
      rw [List.length_drop, hlen]; omega
    rw [List.getElem?_reverse (by rw [hdropLen]; exact hi)]
    rw [hdropLen, List.getElem?_drop]
    rw [show n - 10 + (10 - 1 - i) = n - (i + 1) from by omega]
    simp only [StaticPageRank.printedEntries, List.getElem?_map, List.getElem?_range,
      hi, if_pos]
    rw [List.getElem?_eq_getElem hidx]
    simp only [Option.map_some', List.getD_eq_getElem?_getD,
      List.getElem?_eq_getElem hidx, Option.getD_some]
  · have h1 : (StaticPageRank.printedEntries scores n).length ≤ i := by
      simp only [StaticPageRank.printedEntries, List.length_map, List.length_range]
      omega
    have h2 : (((StaticPageRank.sortPairsByScore scores n).drop (n - 10)).reverse).length ≤ i := by
      rw [List.length_reverse, List.length_drop, hlen]
      omega
    rw [List.getElem?_eq_none h1, List.getElem?_eq_none h2]

/-- Claim C8, amended: `printRankings` takes no requested count; for every
score array over `n ≥ 10` vertices it prints exactly ten (score, id)
entries, in non-increasing score order, and those ten are a set of ten
highest-scored entries: every printed score is ≥ every score not printed,
and the printed entries together with the unprinted ones are a permutation
of all (score, id) pairs. -/
theorem printRankings_top_ten (scores : Nat → ℚ) (n : Nat) (hn : 10 ≤ n) :
    (StaticPageRank.printedEntries scores n).length = 10 ∧
    (StaticPageRank.printedEntries scores n).Pairwise (fun p q => q.1 ≤ p.1) ∧
    (∀ p ∈ StaticPageRank.printedEntries scores n,
      ∀ q ∈ (StaticPageRank.sortPairsByScore scores n).take (n - 10), q.1 ≤ p.1) ∧
    (StaticPageRank.printedEntries scores n ++
        (StaticPageRank.sortPairsByScore scores n).take (n - 10)).Perm
      (StaticPageRank.idScorePairs scores n) := by
  have hlen : (StaticPageRank.sortPairsByScore scores n).length = n :=
    length_sortPairsByScore scores n
  have heq := printedEntries_eq_reverse_drop scores n hn
  have hsorted : (StaticPageRank.sortPairsByScore scores n).Pairwise StaticPageRank.scoreLE :=
    List.sorted_insertionSort StaticPageRank.scoreLE _
  refine ⟨?_, ?_, ?_, ?_⟩
  · rw [heq, List.length_reverse, List.length_drop, hlen]
    omega
  · rw [heq, List.pairwise_reverse]
    exact List.Pairwise.sublist (List.drop_sublist _ _) hsorted
  · intro p hp q hq
    have hp' : p ∈ (StaticPageRank.sortPairsByScore scores n).drop (n - 10) := by
      rw [heq] at hp
      exact List.mem_reverse.mp hp
    have hsplit : ((StaticPageRank.sortPairsByScore scores n).take (n - 10) ++
        (StaticPageRank.sortPairsByScore scores n).drop (n - 10)).Pairwise
        StaticPageRank.scoreLE := by
      rw [List.take_append_drop]
      exact hsorted
    exact (List.pairwise_append.mp hsplit).2.2 q hq p hp'
  · rw [heq]
    have h1 : (((StaticPageRank.sortPairsByScore scores n).drop (n - 10)).reverse ++
        (StaticPageRank.sortPairsByScore scores n).take (n - 10)).Perm
        ((StaticPageRank.sortPairsByScore scores n).drop (n - 10) ++
          (StaticPageRank.sortPairsByScore scores n).take (n - 10)) :=
      List.Perm.append_right _ (List.reverse_perm _)
    have h2 : ((StaticPageRank.sortPairsByScore scores n).drop (n - 10) ++
        (StaticPageRank.sortPairsByScore scores n).take (n - 10)).Perm
        (StaticPageRank.sortPairsByScore scores n) := by
      have hc := @List.perm_append_comm _ ((StaticPageRank.sortPairsByScore scores n).drop (n - 10))
        ((StaticPageRank.sortPairsByScore scores n).take (n - 10))
      rw [List.take_append_drop] at hc
      exact hc
    exact (h1.trans h2).trans (List.perm_insertionSort StaticPageRank.scoreLE _)

/-- Witness for claim C8 (amended) at the concrete identity score array on
`n = 10` vertices. -/
theorem printRankings_top_ten_witness :
    (StaticPageRank.printedEntries (fun v => (v : ℚ)) 10).length = 10 ∧
    (StaticPageRank.printedEntries (fun v => (v : ℚ)) 10).Pairwise (fun p q => q.1 ≤ p.1) ∧
    (∀ p ∈ StaticPageRank.printedEntries (fun v => (v : ℚ)) 10,
      ∀ q ∈ (StaticPageRank.sortPairsByScore (fun v => (v : ℚ)) 10).take (10 - 10), q.1 ≤ p.1) ∧
    (StaticPageRank.printedEntries (fun v => (v : ℚ)) 10 ++
        (StaticPageRank.sortPairsByScore (fun v => (v : ℚ)) 10).take (10 - 10)).Perm
      (StaticPageRank.idScorePairs (fun v => (v : ℚ)) 10) :=
  printRankings_top_ten (fun v => (v : ℚ)) 10 (by norm_num)

/-- Claim C8, counterexample: the report routine takes no count `k`; on a
12-vertex graph it prints 10 entries, so for the requested `k = 3 < N` it
does not return exactly `k` pairs. -/
theorem printRankings_not_k_entries :
    (StaticPageRank.printedEntries (fun v => (v : ℚ)) 12).length = 10 ∧
    (10 : Nat) ≠ 3 := by
  constructor
  · simp only [StaticPageRank.printedEntries, List.length_map, List.length_range]
  · decide

end hornet_alg
